import Mathlib

/-!
Verification of the graphiti-neo4j temporal-memory design.

The repository consists of examples, tests and patch scripts around the
temporal episode-ingestion engine; the engine itself (fact supersession,
memory guard, retry executor, temporal query resolver) is described by the
design document and is not present among the repository files, so those
components are modelled from the spec.  The patch script
`scripts/graphiti_patches.py` is embedded directly from its source.

Time values (reference_time, valid_from, valid_to, as_of_time) are modelled
as natural numbers; in concrete scenarios days are encoded as
Sunday = 0, Monday = 1, Tuesday = 2, Wednesday = 3, Thursday = 4.
-/

namespace Graphiti

/-- Modelled from the spec (§3 Data Model): a Candidate Fact produced by the
extraction collaborator from one episode — subject, predicate, object/value,
and the originating episode's reference_time. -/
structure CandidateFact where
  subject : String
  predicate : String
  value : String
  refTime : Nat
deriving DecidableEq, Repr

/-- Modelled from the spec (§3 Data Model): a persisted Fact Record with a
validity interval; `valid_to = none` means the record is currently open. -/
structure FactRecord where
  subject : String
  predicate : String
  value : String
  valid_from : Nat
  valid_to : Option Nat
deriving DecidableEq, Repr

/-- Whether record `r` is the open ("current") record for key `(s, p)`. -/
def predOpen (s p : String) (r : FactRecord) : Bool :=
  (r.subject == s && r.predicate == p) && r.valid_to.isNone

/-- Modelled from the spec (§4.3 step 1): read the current open Fact Record
for a key from storage (none, if first time). -/
def openRecord? (st : List FactRecord) (s p : String) : Option FactRecord :=
  st.find? (predOpen s p)

/-- Number of open records with key `(s, p)` in a snapshot. -/
def openCount (st : List FactRecord) (s p : String) : Nat :=
  (st.filter (predOpen s p)).length

/-- Minimum of a list of naturals, `none` on the empty list. -/
def listMin? : List Nat → Option Nat
  | [] => none
  | x :: xs => some (xs.foldl Nat.min x)

/-- Modelled from the spec (§4.3 step 3): the valid_from of the same-key
record immediately following time `t` — the least same-key valid_from that
is at or after `t`. -/
def succFrom (st : List FactRecord) (s p : String) (t : Nat) : Option Nat :=
  listMin? ((st.filter
    (fun r => (r.subject == s && r.predicate == p) && decide (t ≤ r.valid_from))).map
      (fun r => r.valid_from))

/-- Modelled from the spec (§4.3 step 2): atomically patch the existing open
record of key `(s, p)`, setting its valid_to to `t`.  Only valid_to changes;
the record is neither deleted nor otherwise edited. -/
def closeAt (st : List FactRecord) (s p : String) (t : Nat) : List FactRecord :=
  st.map (fun r => if predOpen s p r then { r with valid_to := some t } else r)

/-- The new open record written for a candidate fact (§4.3 step 2). -/
def newOpen (c : CandidateFact) : FactRecord :=
  ⟨c.subject, c.predicate, c.value, c.refTime, none⟩

/-- The historical record written for a late-arriving candidate fact
(§4.3 step 3): valid_to is the valid_from of the record immediately
following it in time. -/
def histRecord (st : List FactRecord) (c : CandidateFact) : FactRecord :=
  ⟨c.subject, c.predicate, c.value, c.refTime,
    succFrom st c.subject c.predicate c.refTime⟩

/-- Modelled from the spec (§4.3 Fact Supersession Engine): process one
candidate fact against the stored Fact Records.  If no open record exists
for the key, or the open record's valid_from is strictly earlier than the
candidate's, append a new open record (closing the old one in the same
step); otherwise insert the candidate as a historical record. -/
def applyFact (st : List FactRecord) (c : CandidateFact) : List FactRecord :=
  match openRecord? st c.subject c.predicate with
  | none => st ++ [newOpen c]
  | some r =>
    if r.valid_from < c.refTime then
      closeAt st c.subject c.predicate c.refTime ++ [newOpen c]
    else
      st ++ [histRecord st c]

/-- Modelled from the spec (§4.3/§4.4): one add_episode call drives the
Supersession Engine over the episode's candidate facts in order. -/
def addEpisode (st : List FactRecord) (facts : List CandidateFact) : List FactRecord :=
  facts.foldl applyFact st

/-- A sequence of add_episode calls starting from the empty store. -/
def run (eps : List (List CandidateFact)) : List FactRecord :=
  eps.foldl addEpisode []

theorem predOpen_true_iff (s p : String) (r : FactRecord) :
    predOpen s p r = true ↔ r.subject = s ∧ r.predicate = p ∧ r.valid_to = none := by
  simp [predOpen, Option.isNone_iff_eq_none, and_assoc]

theorem openCount_append_single (st : List FactRecord) (x : FactRecord) (s p : String) :
    openCount (st ++ [x]) s p =
      openCount st s p + (if predOpen s p x then 1 else 0) := by
  simp only [openCount, List.filter_append]
  cases h : predOpen s p x <;> simp [h]

theorem closeAt_cons (r : FactRecord) (st : List FactRecord) (s p : String) (t : Nat) :
    closeAt (r :: st) s p t =
      (if predOpen s p r then { r with valid_to := some t } else r) :: closeAt st s p t :=
  rfl

theorem openCount_closeAt_self (st : List FactRecord) (s p : String) (t : Nat) :
    openCount (closeAt st s p t) s p = 0 := by
  induction st with
  | nil => rfl
  | cons r st ih =>
    rw [closeAt_cons]
    cases h : predOpen s p r with
    | false =>
      simpa [openCount, List.filter_cons, h] using ih
    | true =>
      have hf : predOpen s p { r with valid_to := some t } = false := by
        simp [predOpen]
      simpa [openCount, List.filter_cons, hf] using ih

theorem openCount_closeAt_ne (st : List FactRecord) (s p s₀ p₀ : String) (t : Nat)
    (h : ¬(s = s₀ ∧ p = p₀)) :
    openCount (closeAt st s₀ p₀ t) s p = openCount st s p := by
  induction st with
  | nil => rfl
  | cons r st ih =>
    rw [closeAt_cons]
    cases hr : predOpen s₀ p₀ r with
    | false =>
      simp only [Bool.false_eq_true, if_false, openCount, List.filter_cons] at ih ⊢
      cases hsp : predOpen s p r <;> simp [hsp, ih]
    | true =>
      obtain ⟨h1, h2, h3⟩ := (predOpen_true_iff s₀ p₀ r).mp hr
      have hkey : ¬(r.subject = s ∧ r.predicate = p) := by
        rintro ⟨ha, hb⟩
        exact h ⟨by rw [← ha, h1], by rw [← hb, h2]⟩
      have hf1 : predOpen s p r = false := by
        rw [Bool.eq_false_iff]
        intro hc
        obtain ⟨ha, hb, _⟩ := (predOpen_true_iff s p r).mp hc
        exact hkey ⟨ha, hb⟩
      have hf2 : predOpen s p { r with valid_to := some t } = false := by
        simp [predOpen]
      simp only [if_true, openCount, List.filter_cons] at ih ⊢
      simp [hf1, hf2, ih]

theorem openRecord?_none_openCount (st : List FactRecord) (s p : String)
    (h : openRecord? st s p = none) : openCount st s p = 0 := by
  have hall := List.find?_eq_none.mp h
  simp only [openCount, List.length_eq_zero]
  exact List.filter_eq_nil_iff.mpr hall

theorem listMin?_of_ne_nil (l : List Nat) (h : l ≠ []) : ∃ v, listMin? l = some v := by
  cases l with
  | nil => exact absurd rfl h
  | cons x xs => exact ⟨_, rfl⟩

theorem succFrom_isSome (st : List FactRecord) (s p : String) (t : Nat)
    (r : FactRecord) (hr : r ∈ st) (hopen : predOpen s p r = true)
    (ht : t ≤ r.valid_from) :
    ∃ v, succFrom st s p t = some v := by
  obtain ⟨h1, h2, _⟩ := (predOpen_true_iff s p r).mp hopen
  have hmem : r.valid_from ∈
      ((st.filter
        (fun x => (x.subject == s && x.predicate == p) && decide (t ≤ x.valid_from))).map
          (fun x => x.valid_from)) := by
    refine List.mem_map_of_mem _ (List.mem_filter.mpr ⟨hr, ?_⟩)
    simp [h1, h2, ht]
  exact listMin?_of_ne_nil _ (by rintro hnil; rw [hnil] at hmem; exact absurd hmem (by simp))

theorem applyFact_of_none (st : List FactRecord) (c : CandidateFact)
    (h : openRecord? st c.subject c.predicate = none) :
    applyFact st c = st ++ [newOpen c] := by
  unfold applyFact
  rw [h]

theorem applyFact_of_some (st : List FactRecord) (c : CandidateFact) (r : FactRecord)
    (h : openRecord? st c.subject c.predicate = some r) :
    applyFact st c =
      if r.valid_from < c.refTime then
        closeAt st c.subject c.predicate c.refTime ++ [newOpen c]
      else st ++ [histRecord st c] := by
  unfold applyFact
  rw [h]

theorem openCount_applyFact_le (st : List FactRecord) (c : CandidateFact)
    (h : ∀ s p, openCount st s p ≤ 1) (s p : String) :
    openCount (applyFact st c) s p ≤ 1 := by
  cases hfind : openRecord? st c.subject c.predicate with
  | none =>
    rw [applyFact_of_none st c hfind, openCount_append_single]
    by_cases hk : s = c.subject ∧ p = c.predicate
    · obtain ⟨rfl, rfl⟩ := hk
      rw [openRecord?_none_openCount st _ _ hfind]
      split <;> simp
    · have hfalse : predOpen s p (newOpen c) = false := by
        rw [Bool.eq_false_iff]
        intro hc
        obtain ⟨ha, hb, _⟩ := (predOpen_true_iff s p (newOpen c)).mp hc
        exact hk ⟨ha.symm, hb.symm⟩
      rw [hfalse]
      simpa using h s p
  | some r =>
    have hr : r ∈ st := List.mem_of_find?_eq_some hfind
    have hro : predOpen c.subject c.predicate r = true := List.find?_some hfind
    rw [applyFact_of_some st c r hfind]
    by_cases hlt : r.valid_from < c.refTime
    · rw [if_pos hlt, openCount_append_single]
      by_cases hk : s = c.subject ∧ p = c.predicate
      · obtain ⟨rfl, rfl⟩ := hk
        rw [openCount_closeAt_self]
        split <;> simp
      · rw [openCount_closeAt_ne st s p c.subject c.predicate c.refTime hk]
        have hfalse : predOpen s p (newOpen c) = false := by
          rw [Bool.eq_false_iff]
          intro hc
          obtain ⟨ha, hb, _⟩ := (predOpen_true_iff s p (newOpen c)).mp hc
          exact hk ⟨ha.symm, hb.symm⟩
        rw [hfalse]
        simpa using h s p
    · rw [if_neg hlt, openCount_append_single]
      obtain ⟨v, hv⟩ := succFrom_isSome st c.subject c.predicate c.refTime r hr hro
        (Nat.le_of_not_lt hlt)
      have hfalse : predOpen s p (histRecord st c) = false := by
        simp [predOpen, histRecord, hv]
      rw [hfalse]
      simpa using h s p

theorem openCount_addEpisode_le (facts : List CandidateFact) :
    ∀ st : List FactRecord, (∀ s p, openCount st s p ≤ 1) →
      ∀ s p, openCount (addEpisode st facts) s p ≤ 1 := by
  induction facts with
  | nil => intro st h s p; exact h s p
  | cons c cs ih =>
    intro st h s p
    have hstep : addEpisode st (c :: cs) = addEpisode (applyFact st c) cs := rfl
    rw [hstep]
    exact ih (applyFact st c) (openCount_applyFact_le st c h) s p

theorem openCount_run_le (eps : List (List CandidateFact)) (s p : String) :
    openCount (run eps) s p ≤ 1 := by
  suffices hgen : ∀ (l : List (List CandidateFact)) (st : List FactRecord),
      (∀ s p, openCount st s p ≤ 1) →
      ∀ s p, openCount (l.foldl addEpisode st) s p ≤ 1 by
    exact hgen eps [] (fun s p => by simp [openCount]) s p
  intro l
  induction l with
  | nil => intro st h s p; exact h s p
  | cons facts rest ih =>
    intro st h s p
    have hstep : (facts :: rest).foldl addEpisode st = rest.foldl addEpisode (addEpisode st facts) :=
      rfl
    rw [hstep]
    exact ih (addEpisode st facts) (openCount_addEpisode_le facts st h) s p

/-- Two Fact Records agree on every field except possibly valid_to. -/
def coreEq (r r' : FactRecord) : Prop :=
  r.subject = r'.subject ∧ r.predicate = r'.predicate ∧
    r.value = r'.value ∧ r.valid_from = r'.valid_from

theorem coreEq_refl (r : FactRecord) : coreEq r r := ⟨rfl, rfl, rfl, rfl⟩

theorem forall₂_coreEq_map (l : List FactRecord) (f : FactRecord → FactRecord)
    (hf : ∀ r, coreEq r (f r)) : List.Forall₂ coreEq l (l.map f) := by
  induction l with
  | nil => exact List.Forall₂.nil
  | cons r rs ih => exact List.Forall₂.cons (hf r) ih

theorem applyFact_appendOnly (st : List FactRecord) (c : CandidateFact) :
    ∃ patched newRec, applyFact st c = patched ++ [newRec] ∧
      List.Forall₂ coreEq st patched := by
  cases hfind : openRecord? st c.subject c.predicate with
  | none =>
    exact ⟨st, newOpen c, applyFact_of_none st c hfind,
      List.forall₂_same.mpr fun x _ => coreEq_refl x⟩
  | some r =>
    by_cases hlt : r.valid_from < c.refTime
    · refine ⟨closeAt st c.subject c.predicate c.refTime, newOpen c, ?_, ?_⟩
      · rw [applyFact_of_some st c r hfind, if_pos hlt]
      · refine forall₂_coreEq_map st _ fun x => ?_
        split <;> exact ⟨rfl, rfl, rfl, rfl⟩
    · exact ⟨st, histRecord st c, by rw [applyFact_of_some st c r hfind, if_neg hlt],
        List.forall₂_same.mpr fun x _ => coreEq_refl x⟩

/-- C1: every snapshot reachable by a sequence of add_episode operations has
at most one open Fact Record (valid_to = null) per (subject, predicate) key,
and each supersession step only appends one new record and patches valid_to
fields: no stored record is deleted, and the subject, predicate, value and
valid_from of stored records are never edited. -/
theorem c1_open_record_invariant :
    (∀ (eps : List (List CandidateFact)) (s p : String), openCount (run eps) s p ≤ 1) ∧
    (∀ (st : List FactRecord) (c : CandidateFact),
      ∃ patched newRec, applyFact st c = patched ++ [newRec] ∧
        List.Forall₂ coreEq st patched) :=
  ⟨fun eps s p => openCount_run_le eps s p, fun st c => applyFact_appendOnly st c⟩

/-- Modelled from the spec (§4.5 Temporal Query Resolver): a Fact Record's
validity interval contains the query time `t` when valid_from ≤ t and
(valid_to is null or t < valid_to). -/
def validAt (t : Nat) (r : FactRecord) : Bool :=
  decide (r.valid_from ≤ t) &&
    (match r.valid_to with
     | none => true
     | some v => decide (t < v))

/-- Modelled from the spec (§4.5): after the storage/index collaborator has
produced ranked results, the resolver keeps only the Fact Records whose
validity interval contains as_of_time. -/
def queryFilter (t : Nat) (results : List FactRecord) : List FactRecord :=
  results.filter (validAt t)

theorem validAt_true_iff (t : Nat) (r : FactRecord) :
    validAt t r = true ↔
      r.valid_from ≤ t ∧ (r.valid_to = none ∨ ∃ v, r.valid_to = some v ∧ t < v) := by
  cases hv : r.valid_to <;> simp [validAt, hv]

/-- Fact A of the spec's temporal-correctness scenario: the Monday price. -/
def factA : CandidateFact := ⟨"Product", "price", "USD 79", 1⟩

/-- Fact B of the spec's temporal-correctness scenario: the Wednesday price
for the same (subject, predicate) key. -/
def factB : CandidateFact := ⟨"Product", "price", "USD 69", 3⟩

/-- A variant of fact B carrying the same reference_time as fact A. -/
def factBsameDay : CandidateFact := ⟨"Product", "price", "USD 69", 1⟩

/-- The store after ingesting fact A then fact B. -/
def priceState : List FactRecord := run [[factA], [factB]]

/-- C2: with fact A (Monday = 1) and fact B (Wednesday = 3) ingested for the
same key, a query as of Thursday (4) returns B's value, a query as of
Tuesday (2) returns A's value, and a query as of Sunday (0) returns no fact;
in general the query filter keeps exactly the Fact Records with
valid_from ≤ as_of_time and (valid_to is null or as_of_time < valid_to). -/
theorem c2_temporal_query :
    ((queryFilter 4 priceState).map (fun r => r.value) = ["USD 69"]) ∧
    ((queryFilter 2 priceState).map (fun r => r.value) = ["USD 79"]) ∧
    queryFilter 0 priceState = [] ∧
    (∀ (t : Nat) (results : List FactRecord) (r : FactRecord),
      r ∈ queryFilter t results ↔
        r ∈ results ∧ r.valid_from ≤ t ∧
          (r.valid_to = none ∨ ∃ v, r.valid_to = some v ∧ t < v)) := by
  refine ⟨by decide, by decide, by decide, ?_⟩
  intro t results r
  rw [queryFilter, List.mem_filter, validAt_true_iff]

theorem run_pair_lt (A B : CandidateFact) (hs : A.subject = B.subject)
    (hp : A.predicate = B.predicate) (hab : A.refTime < B.refTime) :
    run [[A], [B]] =
      [⟨A.subject, A.predicate, A.value, A.refTime, some B.refTime⟩, newOpen B] := by
  have h1 : applyFact [] A = [newOpen A] := by simpa using applyFact_of_none [] A rfl
  have hfind : openRecord? [newOpen A] B.subject B.predicate = some (newOpen A) :=
    List.find?_cons_of_pos _ (by simp [predOpen, newOpen, hs, hp])
  show applyFact (applyFact [] A) B = _
  rw [h1, applyFact_of_some _ _ _ hfind,
    if_pos (show (newOpen A).valid_from < B.refTime from hab)]
  simp [closeAt, predOpen, newOpen, hs, hp]

theorem run_pair_gt (A B : CandidateFact) (hs : A.subject = B.subject)
    (hp : A.predicate = B.predicate) (hba : B.refTime < A.refTime) :
    run [[A], [B]] =
      [newOpen A, ⟨B.subject, B.predicate, B.value, B.refTime, some A.refTime⟩] := by
  have h1 : applyFact [] A = [newOpen A] := by simpa using applyFact_of_none [] A rfl
  have hfind : openRecord? [newOpen A] B.subject B.predicate = some (newOpen A) :=
    List.find?_cons_of_pos _ (by simp [predOpen, newOpen, hs, hp])
  show applyFact (applyFact [] A) B = _
  rw [h1, applyFact_of_some _ _ _ hfind,
    if_neg (show ¬(newOpen A).valid_from < B.refTime from Nat.not_lt.mpr (Nat.le_of_lt hba))]
  simp [histRecord, succFrom, listMin?, newOpen, hs, hp, Nat.le_of_lt hba]

/-- C3 counterexample: two facts for the same (subject, predicate) key with
equal reference_time values produce different final fact-record states
depending on arrival order — the tie is broken by arrival order, so
ingestion does not commute for every pair of episodes. -/
theorem c3_counterexample_equal_reference_time :
    (↑(run [[factA], [factBsameDay]]) : Multiset FactRecord) ≠
      ↑(run [[factBsameDay], [factA]]) := by decide

/-- C3 (amended): for two episodes each producing one fact for the same
(subject, predicate) key with distinct reference_time values, ingesting them
from the empty store in either arrival order yields the same multiset of
Fact Records — supersession is decided by reference_time comparison, not by
arrival order. -/
theorem c3_ingestion_commutes_distinct_times (A B : CandidateFact)
    (hs : A.subject = B.subject) (hp : A.predicate = B.predicate)
    (ht : A.refTime ≠ B.refTime) :
    (↑(run [[A], [B]]) : Multiset FactRecord) = ↑(run [[B], [A]]) := by
  rcases Nat.lt_or_ge A.refTime B.refTime with hab | hge
  · rw [run_pair_lt A B hs hp hab, run_pair_gt B A hs.symm hp.symm hab]
    exact Multiset.coe_eq_coe.mpr (List.Perm.swap _ _ _)
  · have hba : B.refTime < A.refTime := Nat.lt_of_le_of_ne hge (fun h => ht h.symm)
    rw [run_pair_gt A B hs hp hba, run_pair_lt B A hs.symm hp.symm hba]
    exact Multiset.coe_eq_coe.mpr (List.Perm.swap _ _ _)

/-- Witness for the amended C3 theorem at the spec's Monday/Wednesday pair. -/
theorem c3_ingestion_commutes_distinct_times_witness :
    (↑(run [[factA], [factB]]) : Multiset FactRecord) = ↑(run [[factB], [factA]]) :=
  c3_ingestion_commutes_distinct_times factA factB rfl rfl (by decide)

/-- Modelled from the spec (§4.1/§6 configuration surface): available
capacity, the memory safety factor expressed as the fraction
safetyNum / safetyDen (the script configures MEMORY_SAFETY_FACTOR = 0.8),
and the maximum number of concurrently outstanding tickets. -/
structure GuardConfig where
  capacity : Nat
  safetyNum : Nat
  safetyDen : Nat
  maxTickets : Nat
deriving DecidableEq, Repr

/-- Modelled from the spec (§3 Capacity Budget): outstanding reserved cost
and number of outstanding tickets. -/
structure GuardState where
  reserved : Nat
  tickets : Nat
deriving DecidableEq, Repr

/-- Modelled from the spec (§3 Ingestion Ticket): holds the reservation. -/
structure Ticket where
  cost : Nat
deriving DecidableEq, Repr

/-- The Guard's backpressure signal. -/
inductive AdmissionRejected where
  | rejected
deriving DecidableEq, Repr

/-- Whether the reservation may be granted: reserved cost plus the estimate
stays under the safety-factor fraction of capacity, and the ticket count
stays under the configured maximum. -/
def canReserve (cfg : GuardConfig) (st : GuardState) (est : Nat) : Bool :=
  decide ((st.reserved + est) * cfg.safetyDen < cfg.safetyNum * cfg.capacity) &&
    decide (st.tickets < cfg.maxTickets)

/-- Modelled from the spec (§4.1 Memory/Concurrency Guard): the
check-and-reserve of `admit(estimated_cost)` as one atomic step — on success
it returns the Ticket together with the updated Capacity Budget; in every
other case it returns AdmissionRejected immediately (as a total function it
never blocks). -/
def admission (cfg : GuardConfig) (st : GuardState) (est : Nat) :
    Except AdmissionRejected (Ticket × GuardState) :=
  if canReserve cfg st est then
    Except.ok (⟨est⟩, ⟨st.reserved + est, st.tickets + 1⟩)
  else
    Except.error AdmissionRejected.rejected

/-- Modelled from the spec (§4.1): `release(ticket)` returns the ticket's
reservation to the Capacity Budget. -/
def release (st : GuardState) (t : Ticket) : GuardState :=
  ⟨st.reserved - t.cost, st.tickets - 1⟩

theorem canReserve_true_iff (cfg : GuardConfig) (st : GuardState) (est : Nat) :
    canReserve cfg st est = true ↔
      (st.reserved + est) * cfg.safetyDen < cfg.safetyNum * cfg.capacity ∧
        st.tickets < cfg.maxTickets := by
  simp [canReserve]

/-- C4: admission returns a Ticket, reserving cost and slot, exactly when the
outstanding reserved cost plus the estimate stays under the safety-factor
fraction of capacity and the outstanding ticket count stays under the
configured maximum; in every other case it returns AdmissionRejected. -/
theorem c4_admission_iff (cfg : GuardConfig) (st : GuardState) (est : Nat) :
    (admission cfg st est =
        Except.ok (⟨est⟩, ⟨st.reserved + est, st.tickets + 1⟩) ↔
      (st.reserved + est) * cfg.safetyDen < cfg.safetyNum * cfg.capacity ∧
        st.tickets < cfg.maxTickets) ∧
    (admission cfg st est = Except.error AdmissionRejected.rejected ↔
      ¬((st.reserved + est) * cfg.safetyDen < cfg.safetyNum * cfg.capacity ∧
        st.tickets < cfg.maxTickets)) := by
  by_cases h : canReserve cfg st est = true
  · have hc := (canReserve_true_iff cfg st est).mp h
    simp [admission, h, hc]
  · have hc : ¬((st.reserved + est) * cfg.safetyDen < cfg.safetyNum * cfg.capacity ∧
        st.tickets < cfg.maxTickets) := fun hcc => h ((canReserve_true_iff cfg st est).mpr hcc)
    simp [admission, h, hc]

/-- One atomic interaction with the Guard: an admission request with an
estimated cost, or the release of a held ticket. -/
inductive GuardEvent where
  | reserveReq (est : Nat)
  | releaseReq (t : Ticket)
deriving DecidableEq, Repr

/-- Modelled from the spec (§5 Concurrency model): any interleaving of
concurrent callers is a sequence of the Guard's atomic steps on the shared
Capacity Budget (the spec requires check-and-reserve to be a single atomic
step). A rejected admission leaves the budget unchanged. -/
def guardStep (cfg : GuardConfig) (st : GuardState) : GuardEvent → GuardState
  | GuardEvent.reserveReq est =>
    match admission cfg st est with
    | Except.ok r => r.2
    | Except.error _ => st
  | GuardEvent.releaseReq t => release st t

/-- Run an interleaving from the initial (empty) Capacity Budget. -/
def guardRun (cfg : GuardConfig) (evs : List GuardEvent) : GuardState :=
  evs.foldl (guardStep cfg) ⟨0, 0⟩

theorem guardStep_tickets_le (cfg : GuardConfig) (st : GuardState) (ev : GuardEvent)
    (h : st.tickets ≤ cfg.maxTickets) :
    (guardStep cfg st ev).tickets ≤ cfg.maxTickets := by
  cases ev with
  | reserveReq est =>
    by_cases hc : canReserve cfg st est = true
    · have h2 := ((canReserve_true_iff cfg st est).mp hc).2
      simp only [guardStep, admission, hc, if_true]
      omega
    · simp only [guardStep, admission, hc, if_false]
      exact h
  | releaseReq t =>
    simp only [guardStep, release]
    omega

theorem guardRun_tickets_le (cfg : GuardConfig) (evs : List GuardEvent) :
    (guardRun cfg evs).tickets ≤ cfg.maxTickets := by
  suffices hgen : ∀ (l : List GuardEvent) (st : GuardState),
      st.tickets ≤ cfg.maxTickets →
      (l.foldl (guardStep cfg) st).tickets ≤ cfg.maxTickets from
    hgen evs ⟨0, 0⟩ (Nat.zero_le _)
  intro l
  induction l with
  | nil => intro st h; exact h
  | cons ev rest ih =>
    intro st h
    exact ih (guardStep cfg st ev) (guardStep_tickets_le cfg st ev h)

/-- The C7 scenario configuration: ample capacity, safety factor 8/10, and a
maximum of one outstanding ticket. -/
def guardCfg1 : GuardConfig := ⟨100, 8, 10, 1⟩

/-- C7: with max outstanding tickets = 1, the first of two concurrent
add_episode admissions gets the only ticket, the second is rejected while
the first is still in flight, and a resubmission after the first caller
releases its ticket succeeds; moreover, over every interleaved sequence of
atomic guard steps the number of outstanding tickets never exceeds the
configured maximum, so two racing callers are never both admitted past a
limit. -/
theorem c7_backpressure_single_slot :
    (admission guardCfg1 ⟨0, 0⟩ 10 = Except.ok (⟨10⟩, ⟨10, 1⟩)) ∧
    (admission guardCfg1 ⟨10, 1⟩ 10 = Except.error AdmissionRejected.rejected) ∧
    (admission guardCfg1 (release ⟨10, 1⟩ ⟨10⟩) 10 = Except.ok (⟨10⟩, ⟨10, 1⟩)) ∧
    (∀ evs : List GuardEvent, (guardRun guardCfg1 evs).tickets ≤ 1) ∧
    (∀ (cfg : GuardConfig) (evs : List GuardEvent),
      (guardRun cfg evs).tickets ≤ cfg.maxTickets) :=
  ⟨rfl, rfl, rfl,
    fun evs => guardRun_tickets_le guardCfg1 evs,
    fun cfg evs => guardRun_tickets_le cfg evs⟩

/-- Modelled from the spec (§7 error taxonomy): terminal outcomes of the
Retry/Backoff Executor — a non-transient error propagated on its first
occurrence, RetryExhausted after the configured maximum attempt count, or no
attempt budget at all. -/
inductive RetryFailure (E : Type) where
  | fatal (e : E)
  | exhausted (e : E)
  | noBudget
deriving Repr

/-- Outcome of the executor together with the number of attempts performed
and the backoff delays slept between attempts. -/
structure RetryResult (E A : Type) where
  outcome : Except (RetryFailure E) A
  attempts : Nat
  delays : List Nat
deriving Repr

/-- Modelled from the spec (§4.2 Retry/Backoff Executor): run attempt `k`
with `fuel` attempts remaining. `op k` is the outcome of the k-th attempt of
the wrapped operation; `classify e = true` marks `e` transient. Between a
failed transient attempt and the next attempt the executor sleeps
min(base · 2^k, cap) + jitter k. A non-transient failure propagates at once;
a transient failure on the last allowed attempt becomes RetryExhausted. -/
def retryGo {E A : Type} (op : Nat → Except E A) (classify : E → Bool)
    (base cap : Nat) (jitter : Nat → Nat) : Nat → Nat → RetryResult E A
  | k, 0 => ⟨Except.error RetryFailure.noBudget, k, []⟩
  | k, fuel + 1 =>
    match op k with
    | Except.ok a => ⟨Except.ok a, k + 1, []⟩
    | Except.error e =>
      if classify e then
        match fuel with
        | 0 => ⟨Except.error (RetryFailure.exhausted e), k + 1, []⟩
        | _ + 1 =>
          let d := Nat.min (base * 2 ^ k) cap + jitter k
          let r := retryGo op classify base cap jitter (k + 1) fuel
          ⟨r.outcome, r.attempts, d :: r.delays⟩
      else ⟨Except.error (RetryFailure.fatal e), k + 1, []⟩

/-- Modelled from the spec (§4.2): `execute(operation)` performs at most
maxAttempts attempts, starting at attempt 0. -/
def execute {E A : Type} (op : Nat → Except E A) (classify : E → Bool)
    (maxAttempts base cap : Nat) (jitter : Nat → Nat) : RetryResult E A :=
  retryGo op classify base cap jitter 0 maxAttempts

/-- Modelled from the spec (§6/§7): the storage collaborator's error type;
TransientStorageError is the retryable classification. -/
inductive StorageError where
  | transientStorage
  | fatalStorage
deriving DecidableEq, Repr

/-- TransientStorageError is transient; every other storage error is not. -/
def isTransient : StorageError → Bool
  | StorageError.transientStorage => true
  | StorageError.fatalStorage => false

/-- A storage collaborator that fails with TransientStorageError on its
first two attempts and succeeds on the third (the spec's retry scenario). -/
def flakyTwice : Nat → Except StorageError Unit
  | 0 => Except.error StorageError.transientStorage
  | 1 => Except.error StorageError.transientStorage
  | _ => Except.ok ()

/-- A storage collaborator that always fails non-transiently. -/
def fatalOp : Nat → Except StorageError Unit :=
  fun _ => Except.error StorageError.fatalStorage

/-- Modelled from the spec (§4.4): the storage phase of an add_episode call
drives the write through the Retry/Backoff Executor with the configured
maximum of 3 attempts (MAX_RETRIES = 3 in the repository's configuration). -/
def addEpisodeStorage (op : Nat → Except StorageError Unit) (base cap : Nat)
    (jitter : Nat → Nat) : RetryResult StorageError Unit :=
  execute op isTransient 3 base cap jitter

theorem retryGo_fatal {E A : Type} (op : Nat → Except E A) (classify : E → Bool)
    (base cap : Nat) (jitter : Nat → Nat) (k fuel : Nat) (e : E)
    (hop : op k = Except.error e) (hc : classify e = false) (hf : 0 < fuel) :
    retryGo op classify base cap jitter k fuel =
      ⟨Except.error (RetryFailure.fatal e), k + 1, []⟩ := by
  cases fuel with
  | zero => exact absurd hf (by omega)
  | succ f => simp [retryGo, hop, hc]

theorem retryGo_attempts_transient {E A : Type} (op : Nat → Except E A)
    (classify : E → Bool) (base cap : Nat) (jitter : Nat → Nat) (k g : Nat) (e : E)
    (hop : op k = Except.error e) (hc : classify e = true) :
    (retryGo op classify base cap jitter k (g + 1 + 1)).attempts =
      (retryGo op classify base cap jitter (k + 1) (g + 1)).attempts := by
  conv_lhs => rw [retryGo]
  simp only [hop, hc, if_true]

theorem retryGo_attempts_le {E A : Type} (op : Nat → Except E A) (classify : E → Bool)
    (base cap : Nat) (jitter : Nat → Nat) :
    ∀ (fuel k : Nat), (retryGo op classify base cap jitter k fuel).attempts ≤ k + fuel := by
  intro fuel
  induction fuel with
  | zero => intro k; simp [retryGo]
  | succ f ih =>
    intro k
    cases hop : op k with
    | ok a => simp [retryGo, hop]
    | error e =>
      cases hc : classify e with
      | false => simp [retryGo, hop, hc]
      | true =>
        cases f with
        | zero => simp [retryGo, hop, hc]
        | succ g =>
          have h1 := ih (k + 1)
          have h2 := retryGo_attempts_transient op classify base cap jitter k g e hop hc
          omega

/-- C5: the Retry/Backoff Executor propagates a non-transient error on its
first occurrence without any retry (one attempt performed, no backoff
sleeps); the number of attempts never exceeds the configured maximum; and an
operation that fails twice with TransientStorageError and succeeds on the
third attempt makes the enclosing add_episode storage phase succeed with
exactly 3 attempts performed, sleeping min(base · 2^attempt, cap) + jitter
between consecutive attempts. -/
theorem c5_retry_executor :
    (∀ {E A : Type} (op : Nat → Except E A) (classify : E → Bool)
      (base cap : Nat) (jitter : Nat → Nat) (k fuel : Nat) (e : E),
      op k = Except.error e → classify e = false → 0 < fuel →
      retryGo op classify base cap jitter k fuel =
        ⟨Except.error (RetryFailure.fatal e), k + 1, []⟩) ∧
    (∀ {E A : Type} (op : Nat → Except E A) (classify : E → Bool)
      (maxAttempts base cap : Nat) (jitter : Nat → Nat),
      (execute op classify maxAttempts base cap jitter).attempts ≤ maxAttempts) ∧
    (∀ (base cap : Nat) (jitter : Nat → Nat),
      addEpisodeStorage flakyTwice base cap jitter =
        ⟨Except.ok (), 3,
          [Nat.min (base * 2 ^ 0) cap + jitter 0,
           Nat.min (base * 2 ^ 1) cap + jitter 1]⟩) := by
  refine ⟨?_, ?_, ?_⟩
  · intro E A op classify base cap jitter k fuel e hop hc hf
    exact retryGo_fatal op classify base cap jitter k fuel e hop hc hf
  · intro E A op classify maxAttempts base cap jitter
    simpa using retryGo_attempts_le op classify base cap jitter maxAttempts 0
  · intro base cap jitter
    rfl

/-- Witness for C5: the non-transient branch at a concrete fatal operation,
with hypotheses discharged at attempt 0 and 3 attempts of budget. -/
theorem c5_retry_executor_witness :
    retryGo fatalOp isTransient 5 60 (fun _ => 1) 0 3 =
      ⟨Except.error (RetryFailure.fatal StorageError.fatalStorage), 1, []⟩ :=
  c5_retry_executor.1 fatalOp isTransient 5 60 (fun _ => 1) 0 3
    StorageError.fatalStorage rfl rfl (by decide)

/-- The recognized episode kinds (EpisodeType.text, EpisodeType.json,
EpisodeType.message in the repository's examples and tests). -/
def recognizedKinds : List String := ["text", "json", "message"]

/-- Modelled from the spec (§4.4 Episode Admission Controller): an episode
is valid when its body is non-empty and its kind is one of the recognized
enum values. -/
def validEpisode (body kind : String) : Bool :=
  decide (body ≠ "") && decide (kind ∈ recognizedKinds)

/-- Modelled from the spec (§7 error taxonomy): errors surfaced by an
add_episode call — ValidationError for a malformed episode, or a terminal
failure of the storage phase. -/
inductive ControllerError (E : Type) where
  | validationError
  | storageFailure (f : RetryFailure E)
deriving Repr

/-- Modelled from the spec (§4.4): add_episode validates the episode first
and fails with ValidationError before any storage attempt; otherwise it
drives the storage operation through the Retry/Backoff Executor. Returns
the outcome together with the number of storage attempts performed. -/
def addEpisodeCall {A : Type} (body kind : String)
    (op : Nat → Except StorageError A) (maxAttempts base cap : Nat)
    (jitter : Nat → Nat) : Except (ControllerError StorageError) A × Nat :=
  if validEpisode body kind then
    let r := execute op isTransient maxAttempts base cap jitter
    (match r.outcome with
     | Except.ok a => Except.ok a
     | Except.error f => Except.error (ControllerError.storageFailure f), r.attempts)
  else
    (Except.error ControllerError.validationError, 0)

/-- C6: an add_episode call fails with ValidationError exactly when the body
is empty or the kind is not one of the recognized enum values, and in that
case the failure is surfaced immediately with zero storage attempts
performed — it is never retried. -/
theorem c6_validation_immediate {A : Type} (body kind : String)
    (op : Nat → Except StorageError A) (maxAttempts base cap : Nat)
    (jitter : Nat → Nat) :
    ((addEpisodeCall body kind op maxAttempts base cap jitter).1 =
        Except.error ControllerError.validationError ↔
      (body = "" ∨ kind ∉ recognizedKinds)) ∧
    ((body = "" ∨ kind ∉ recognizedKinds) →
      (addEpisodeCall body kind op maxAttempts base cap jitter).2 = 0) := by
  by_cases hv : validEpisode body kind = true
  · have hvp : ¬(body = "" ∨ kind ∉ recognizedKinds) := by
      have := (by simpa [validEpisode] using hv : body ≠ "" ∧ kind ∈ recognizedKinds)
      tauto
    constructor
    · simp only [addEpisodeCall, hv, if_true]
      cases (execute op isTransient maxAttempts base cap jitter).outcome with
      | ok a => simp [hvp]
      | error f => simp [hvp]
    · intro hcontra
      exact absurd hcontra hvp
  · have hvp : body = "" ∨ kind ∉ recognizedKinds := by
      have := (by simpa [validEpisode] using hv : ¬(body ≠ "" ∧ kind ∈ recognizedKinds))
      tauto
    have hvf : validEpisode body kind = false := Bool.eq_false_iff.mpr hv
    constructor
    · simp [addEpisodeCall, hvf, hvp]
    · intro _
      simp [addEpisodeCall, hvf]

/-- The empty body used in the validation witness. -/
def emptyBody : String := ""

/-- A recognized episode kind used in the validation witness. -/
def kindText : String := "text"

/-- Witness for C6 at a concrete malformed episode (empty body). -/
theorem c6_validation_immediate_witness :
    (addEpisodeCall emptyBody kindText flakyTwice 3 5 60 (fun _ => 1)).1 =
        Except.error ControllerError.validationError ∧
    (addEpisodeCall emptyBody kindText flakyTwice 3 5 60 (fun _ => 1)).2 = 0 :=
  ⟨(c6_validation_immediate emptyBody kindText flakyTwice 3 5 60 (fun _ => 1)).1.mpr
      (Or.inl rfl),
   (c6_validation_immediate emptyBody kindText flakyTwice 3 5 60 (fun _ => 1)).2
      (Or.inl rfl)⟩

/-- Create an index name if it is not already present (CREATE ... IF NOT
EXISTS semantics). -/
def ensureIndex (st : List String) (i : String) : List String :=
  if i ∈ st then st else st ++ [i]

/-- Modelled from the spec (§6 caller-facing surface): the index and
constraint names the setup step creates. -/
def requiredIndices : List String :=
  ["entity_uuid", "edge_uuid", "episode_uuid", "fact_fulltext", "name_fulltext"]

/-- Modelled from the spec (§6): `build_indices_and_constraints()` creates
each required index or constraint that is missing and leaves existing ones
untouched — an idempotent setup step, safe to call multiple times. -/
def build_indices_and_constraints (st : List String) : List String :=
  requiredIndices.foldl ensureIndex st

theorem ensureIndex_mem (st : List String) (i x : String) :
    x ∈ ensureIndex st i ↔ x ∈ st ∨ x = i := by
  by_cases h : i ∈ st
  · simp only [ensureIndex, if_pos h]
    exact ⟨Or.inl, fun hx => hx.elim id fun hxi => hxi ▸ h⟩
  · simp [ensureIndex, if_neg h]

theorem ensureIndex_of_mem (st : List String) (i : String) (h : i ∈ st) :
    ensureIndex st i = st :=
  if_pos h

theorem foldl_ensureIndex_mem_of_mem (req : List String) :
    ∀ (st : List String) (x : String), x ∈ st → x ∈ req.foldl ensureIndex st := by
  induction req with
  | nil => intro st x h; exact h
  | cons i is ih =>
    intro st x h
    exact ih (ensureIndex st i) x ((ensureIndex_mem st i x).mpr (Or.inl h))

theorem foldl_ensureIndex_mem_req (req : List String) :
    ∀ (st : List String) (i : String), i ∈ req → i ∈ req.foldl ensureIndex st := by
  induction req with
  | nil => intro st i h; exact absurd h (List.not_mem_nil i)
  | cons j js ih =>
    intro st i h
    rcases List.mem_cons.mp h with hij | hmem
    · subst hij
      exact foldl_ensureIndex_mem_of_mem js (ensureIndex st i) i
        ((ensureIndex_mem st i i).mpr (Or.inr rfl))
    · exact ih (ensureIndex st j) i hmem

theorem foldl_ensureIndex_of_all_mem (req : List String) :
    ∀ st : List String, (∀ i ∈ req, i ∈ st) → req.foldl ensureIndex st = st := by
  induction req with
  | nil => intro st _; rfl
  | cons j js ih =>
    intro st h
    have hj : j ∈ st := h j (List.mem_cons_self j js)
    have hstep : (j :: js).foldl ensureIndex st = js.foldl ensureIndex (ensureIndex st j) :=
      rfl
    rw [hstep, ensureIndex_of_mem st j hj]
    exact ih st fun i hi => h i (List.mem_cons_of_mem j hi)

theorem ensureIndex_nodup (st : List String) (i : String) (h : st.Nodup) :
    (ensureIndex st i).Nodup := by
  by_cases hm : i ∈ st
  · simpa [ensureIndex, hm] using h
  · simp [ensureIndex, hm, List.nodup_append, h]

theorem foldl_ensureIndex_nodup (req : List String) :
    ∀ st : List String, st.Nodup → (req.foldl ensureIndex st).Nodup := by
  induction req with
  | nil => intro st h; exact h
  | cons j js ih =>
    intro st h
    exact ih (ensureIndex st j) (ensureIndex_nodup st j h)

/-- C8: build_indices_and_constraints is idempotent — running it a second
time leaves exactly the indices and constraints of the first run — and it
never introduces duplicate indices; as a total function it raises no error
on the repeated call. -/
theorem c8_build_indices_idempotent :
    (∀ st : List String,
      build_indices_and_constraints (build_indices_and_constraints st) =
        build_indices_and_constraints st) ∧
    (∀ st : List String, st.Nodup → (build_indices_and_constraints st).Nodup) :=
  ⟨fun st =>
    foldl_ensureIndex_of_all_mem requiredIndices (build_indices_and_constraints st)
      fun i hi => foldl_ensureIndex_mem_req requiredIndices st i hi,
   fun st h => foldl_ensureIndex_nodup requiredIndices st h⟩

/-- Witness for C8 starting from the empty catalogue. -/
theorem c8_build_indices_idempotent_witness :
    build_indices_and_constraints (build_indices_and_constraints []) =
        build_indices_and_constraints [] ∧
    (build_indices_and_constraints []).Nodup :=
  ⟨c8_build_indices_idempotent.1 [],
   c8_build_indices_idempotent.2 [] List.nodup_nil⟩

/-- Whether the pattern (first argument) is a prefix of the character list. -/
def charsStartWith : List Char → List Char → Bool
  | [], _ => true
  | _ :: _, [] => false
  | p :: ps, c :: cs => p == c && charsStartWith ps cs

/-- Python's substring test `pattern in s`, over character lists. -/
def charsContain (pat : List Char) : List Char → Bool
  | [] => pat.isEmpty
  | c :: cs => charsStartWith pat (c :: cs) || charsContain pat cs

/-- Python's `str.replace`: replace every non-overlapping occurrence of the
pattern, scanning left to right.  The fuel argument (instantiated with the
string length) makes the recursion structural; each step consumes at least
one character, so the fuel never runs out. -/
def charsReplaceFuel (pat rep : List Char) : Nat → List Char → List Char
  | _, [] => []
  | 0, s => s
  | fuel + 1, c :: cs =>
    if pat ≠ [] ∧ charsStartWith pat (c :: cs) = true then
      rep ++ charsReplaceFuel pat rep fuel (List.drop (pat.length - 1) cs)
    else
      c :: charsReplaceFuel pat rep fuel cs

/-- Python's `s.replace(pat, rep)` at the String level. -/
def pythonReplace (s pat rep : String) : String :=
  ⟨charsReplaceFuel pat.data rep.data s.data.length s.data⟩

/-- Python's `pat in s` at the String level. -/
def pythonContains (s pat : String) : Bool :=
  charsContain pat.data s.data

/-- The asynchronous session line searched for by the patcher
(graphiti_patches.py line 82). -/
def asyncPattern : String := "async with driver.session() as session:"

/-- The synchronous replacement line (graphiti_patches.py line 85). -/
def syncPattern : String := "with driver.session() as session:"

/-- Embedded from graphiti_patches.py lines 81-87: when the async session
line occurs in the content, replace every occurrence by the synchronous
form; otherwise the content is left as is. -/
def patchContent (content : String) : String :=
  if pythonContains content asyncPattern then
    pythonReplace content asyncPattern syncPattern
  else content

/-- The two files touched by the patcher: the target
graph_data_operations.py and its .py.bak backup (none = file absent). -/
structure PatchFS where
  opsFile : Option String
  bakFile : Option String
deriving DecidableEq, Repr

/-- Embedded from graphiti_patches.py lines 63-114
(GraphitiNeo4jPatcher.patch_async_sync_sessions): return False when the
target file is missing; read its content and apply the replacement; when the
text changed, first write the unmodified original to the .py.bak backup,
then write the patched text to the target and return True; when the text is
unchanged return False.  `bakOk` and `targetOk` say whether the respective
write_text call succeeds; a failing write raises, the surrounding
try/except catches the exception and the function returns False (a failed
write leaves that file unchanged). -/
def patch_async_sync_sessions (fs : PatchFS) (bakOk targetOk : Bool) :
    Bool × PatchFS :=
  match fs.opsFile with
  | none => (false, fs)
  | some content =>
    let patched := patchContent content
    if patched ≠ content then
      if bakOk then
        let fs1 : PatchFS := { fs with bakFile := some content }
        if targetOk then (true, { fs1 with opsFile := some patched })
        else (false, fs1)
      else (false, fs)
    else (false, fs)

/-- C9: patch_async_sync_sessions returns True exactly when the target file
exists, the replacement changes its text, and both writes succeed; whenever
it returns True the target holds the patched text and the backup holds the
unmodified original; whenever it returns False (missing file, unchanged
text, or a failed write) the target file is not modified. -/
theorem c9_patch_async_sync_sessions (fs : PatchFS) (bakOk targetOk : Bool) :
    ((patch_async_sync_sessions fs bakOk targetOk).1 = true ↔
      ∃ c, fs.opsFile = some c ∧ patchContent c ≠ c ∧
        bakOk = true ∧ targetOk = true) ∧
    ((patch_async_sync_sessions fs bakOk targetOk).1 = true →
      ∃ c, fs.opsFile = some c ∧
        (patch_async_sync_sessions fs bakOk targetOk).2.opsFile =
          some (patchContent c) ∧
        (patch_async_sync_sessions fs bakOk targetOk).2.bakFile = some c) ∧
    ((patch_async_sync_sessions fs bakOk targetOk).1 = false →
      (patch_async_sync_sessions fs bakOk targetOk).2.opsFile = fs.opsFile) := by
  obtain ⟨ops, bak⟩ := fs
  cases ops with
  | none => simp [patch_async_sync_sessions]
  | some c =>
    by_cases hch : patchContent c = c
    · simp [patch_async_sync_sessions, hch]
    · cases bakOk <;> cases targetOk <;>
        simp [patch_async_sync_sessions, hch]

/-- A clear_data body containing the async session line, for the witness. -/
def sampleAsyncContent : String :=
  "async def clear_data(driver):\n    async with driver.session() as session:\n        await session.run(query)\n"

/-- The patcher's file state for the witness: the target exists, no backup. -/
def samplePatchFS : PatchFS := ⟨some sampleAsyncContent, none⟩

/-- Witness for C9: on a file containing the async session line, with both
writes succeeding, the target is patched and the backup holds the original. -/
theorem c9_patch_async_sync_sessions_witness :
    ∃ c, samplePatchFS.opsFile = some c ∧
      (patch_async_sync_sessions samplePatchFS true true).2.opsFile =
        some (patchContent c) ∧
      (patch_async_sync_sessions samplePatchFS true true).2.bakFile = some c :=
  (c9_patch_async_sync_sessions samplePatchFS true true).2.1 (by decide)

/-- Embedded from graphiti_patches.py line 221-223: the slices
data[i:i+batch_size] for i in range(0, len(data), batch_size) — the j-th
slice starts at j·b and takes b elements; there are ceil(n/b) slices. -/
def sliceChunks {α : Type} (b : Nat) (data : List α) : List (List α) :=
  (List.range ((data.length + b - 1) / b)).map
    (fun j => (data.drop (j * b)).take b)

theorem sliceChunks_nil {α : Type} (b : Nat) (hb : 0 < b) :
    sliceChunks b ([] : List α) = [] := by
  simp [sliceChunks, Nat.div_eq_of_lt (show b - 1 < b by omega)]

theorem sliceChunks_cons {α : Type} (b : Nat) (hb : 0 < b) (data : List α)
    (hd : data ≠ []) :
    sliceChunks b data = data.take b :: sliceChunks b (data.drop b) := by
  have hlen : 0 < data.length := List.length_pos.mpr hd
  have hcount : (data.length + b - 1) / b = ((data.drop b).length + b - 1) / b + 1 := by
    rw [List.length_drop]
    rcases Nat.le_total b data.length with hle | hlt
    · have h1 : data.length + b - 1 = data.length - 1 + b := by omega
      have h2 : data.length - b + b - 1 = data.length - 1 := by omega
      rw [h1, h2, Nat.add_div_right _ hb]
    · have h2 : data.length - b + b - 1 = b - 1 := by omega
      have h3 : (b - 1) / b = 0 := Nat.div_eq_of_lt (by omega)
      have h4 : (data.length + b - 1) / b = 1 :=
        Nat.div_eq_of_lt_le (by omega) (by omega)
      rw [h2, h3, h4]
  unfold sliceChunks
  rw [hcount, List.range_succ_eq_map, List.map_cons, List.map_map]
  congr 1
  · simp
  · apply List.map_congr_left
    intro j hj
    show (data.drop (Nat.succ j * b)).take b = ((data.drop b).drop (j * b)).take b
    rw [List.drop_drop, Nat.succ_mul, Nat.add_comm (j * b) b]

theorem sliceChunks_join {α : Type} (b : Nat) (hb : 0 < b) (data : List α) :
    (sliceChunks b data).flatten = data := by
  suffices h : ∀ (n : Nat) (l : List α), l.length ≤ n → (sliceChunks b l).flatten = l from
    h data.length data (Nat.le_refl _)
  intro n
  induction n with
  | zero =>
    intro l hl
    have : l = [] := List.eq_nil_of_length_eq_zero (Nat.le_zero.mp hl)
    subst this
    rw [sliceChunks_nil b hb]
    rfl
  | succ n ih =>
    intro l hl
    by_cases hl0 : l = []
    · subst hl0
      rw [sliceChunks_nil b hb]
      rfl
    · rw [sliceChunks_cons b hb l hl0, List.flatten_cons,
        ih (l.drop b) (by rw [List.length_drop]; omega), List.take_append_drop]

/-- The error raised by check_memory (graphiti_patches.py lines 205-209). -/
inductive MemoryError where
  | memExceeded
deriving DecidableEq, Repr

/-- Embedded from graphiti_patches.py lines 221-229 (the batching loop of
MemorySafeGraphiti.add_episode): for each remaining slice, check memory
first (check index `k`; `usage k` is the memory usage percentage observed at
the k-th check, `threshold` the configured limit, and a check above the
threshold raises MemoryError), then run the inner client's add_episode on
the slice and collect its result.  Returns the outcome together with the
number of memory checks this call performed. -/
def runBatches {α R : Type} (threshold : Nat) (usage : Nat → Nat)
    (inner : List α → R) : List (List α) → Nat → Except MemoryError (List R) × Nat
  | [], _ => (Except.ok [], 0)
  | chunk :: rest, k =>
    if usage k > threshold then (Except.error MemoryError.memExceeded, 1)
    else
      match runBatches threshold usage inner rest (k + 1) with
      | (Except.ok rs, n) => (Except.ok (inner chunk :: rs), n + 1)
      | (Except.error e, n) => (Except.error e, n + 1)

/-- Embedded from graphiti_patches.py lines 212-232
(MemorySafeGraphiti.add_episode): check memory, then if the payload is
longer than batch_size process it in the slices data[i:i+batch_size] with a
memory check before each slice and return the list of per-slice results;
otherwise delegate one call to the inner client and return its single
result.  The second component counts the memory checks performed. -/
def memorySafeAddEpisode {α R : Type} (threshold : Nat) (usage : Nat → Nat)
    (inner : List α → R) (batchSize : Nat) (data : List α) :
    Except MemoryError (Sum R (List R)) × Nat :=
  if usage 0 > threshold then (Except.error MemoryError.memExceeded, 1)
  else if data.length > batchSize then
    match runBatches threshold usage inner (sliceChunks batchSize data) 1 with
    | (Except.ok rs, n) => (Except.ok (Sum.inr rs), n + 1)
    | (Except.error e, n) => (Except.error e, n + 1)
  else (Except.ok (Sum.inl (inner data)), 1)

theorem runBatches_all_ok {α R : Type} (threshold : Nat) (usage : Nat → Nat)
    (inner : List α → R) :
    ∀ (chunks : List (List α)) (k : Nat),
      (∀ j, j < chunks.length → usage (k + j) ≤ threshold) →
      runBatches threshold usage inner chunks k =
        (Except.ok (chunks.map inner), chunks.length) := by
  intro chunks
  induction chunks with
  | nil => intro k _; rfl
  | cons ch rest ih =>
    intro k h
    have h0 : usage k ≤ threshold := by simpa using h 0 (by simp)
    have hrest : ∀ j, j < rest.length → usage (k + 1 + j) ≤ threshold := by
      intro j hj
      have hgoal := h (j + 1) (by simpa using Nat.succ_lt_succ hj)
      have harith : k + (j + 1) = k + 1 + j := by omega
      rwa [harith] at hgoal
    have hcond : ¬(usage k > threshold) := Nat.not_lt.mpr h0
    simp only [runBatches, if_neg hcond, ih (k + 1) hrest, List.map_cons,
      List.length_cons]

/-- C10: for a positive batch size b, the slices data[i:i+b] cover the
payload exactly — joining them in order gives back the original list —
and memorySafeAddEpisode processes a payload longer than b as those slices,
with one memory check up front and one before each slice, returning the list
of the per-slice results of the inner client; a payload of length at most b
is delegated in a single inner call whose single result is returned after
the one memory check. -/
theorem c10_memory_safe_batching {α R : Type} (threshold : Nat) (usage : Nat → Nat)
    (inner : List α → R) (b : Nat) (data : List α) (hb : 0 < b) :
    ((sliceChunks b data).flatten = data) ∧
    (data.length > b →
      (∀ k, k ≤ (sliceChunks b data).length → usage k ≤ threshold) →
      memorySafeAddEpisode threshold usage inner b data =
        (Except.ok (Sum.inr ((sliceChunks b data).map inner)),
          (sliceChunks b data).length + 1)) ∧
    (data.length ≤ b → usage 0 ≤ threshold →
      memorySafeAddEpisode threshold usage inner b data =
        (Except.ok (Sum.inl (inner data)), 1)) := by
  refine ⟨sliceChunks_join b hb data, ?_, ?_⟩
  · intro hgt hpass
    have h0 : ¬(usage 0 > threshold) := Nat.not_lt.mpr (hpass 0 (Nat.zero_le _))
    have hrun := runBatches_all_ok threshold usage inner (sliceChunks b data) 1
      (fun j hj => by
        have hgoal := hpass (j + 1) (by omega)
        have harith : 1 + j = j + 1 := by omega
        rwa [harith])
    simp only [memorySafeAddEpisode, if_neg h0, if_pos hgt, hrun]
  · intro hle h0p
    have h0 : ¬(usage 0 > threshold) := Nat.not_lt.mpr h0p
    have hng : ¬(data.length > b) := Nat.not_lt.mpr hle
    simp only [memorySafeAddEpisode, if_neg h0, if_neg hng]

/-- Witness for C10 with batch size 2 and a 3-element payload: the two
slices are processed and their results collected, with three memory checks
performed. -/
theorem c10_memory_safe_batching_witness :
    (sliceChunks 2 [10, 20, 30]).flatten = [10, 20, 30] ∧
    memorySafeAddEpisode 100 (fun _ => 0) (fun l : List Nat => l.length) 2 [10, 20, 30] =
      (Except.ok (Sum.inr [2, 1]), 3) := by
  have h := c10_memory_safe_batching 100 (fun _ => 0) (fun l : List Nat => l.length)
    2 [10, 20, 30] (by decide)
  refine ⟨h.1, ?_⟩
  have h2 := h.2.1 (by decide) (fun k _ => Nat.zero_le _)
  rw [h2]
  rfl

end Graphiti
